import Mathlib

set_option maxRecDepth 10000

namespace TileTool

/-- A pixel with red, green, blue and alpha channels, as PIL exposes them. -/
structure Pixel where
  r : Nat
  g : Nat
  b : Nat
  a : Nat
deriving DecidableEq

/-- An image: dimensions plus a pixel lookup. Shallow embedding of a PIL image. -/
structure Img where
  width : Nat
  height : Nat
  pix : Nat → Nat → Pixel

/-- Pixel access with PIL crop padding: coordinates outside the image read as
fully transparent black, which is how `Image.crop` fills a crop region that
extends past the image border. -/
def getPixel (img : Img) (x y : Nat) : Pixel :=
  if x < img.width ∧ y < img.height then img.pix x y else ⟨0, 0, 0, 0⟩

/-- The tile returned by `img.crop((x, y, x + s, y + s))`: an s by s block of
pixels in row-major order, padded with transparent pixels past the border. -/
def cropTile (img : Img) (x y s : Nat) : List Pixel :=
  (List.range s).flatMap (fun dy => (List.range s).map (fun dx => getPixel img (x + dx) (y + dy)))

/-- Python `range(0, stop, step)` for a positive step: the list
0, step, 2*step, ... of all multiples of step below stop. -/
def pyRange (stop step : Nat) : List Nat :=
  (List.range ((stop + step - 1) / step)).map (fun k => k * step)

/-- `next_tile` (tile_tool.py lines 7-12): yields
`(img.crop((i, j, i + size, j + size)), i, j)` for `j in range(0, h, size)`
and `i in range(0, w, size)`.  Note the ranges also produce the partial
tiles along the right and bottom border when the dimensions are not exact
multiples of `size`. -/
def next_tile (img : Img) (size : Nat) : List (List Pixel × Nat × Nat) :=
  (pyRange img.height size).flatMap (fun j =>
    (pyRange img.width size).map (fun i => (cropTile img i j size, i, j)))

/-- `is_empty_tile` (lines 14-19): the sum of the alpha channel over all
pixels of the tile is zero. -/
def is_empty_tile (t : List Pixel) : Bool :=
  (t.map (fun p => p.a)).sum == 0

/-- `tile_hash` (lines 21-22): sha1 of the raw pixel bytes.  The digest is
modelled as the injective map keeping the pixel content itself, a faithful
rendering of a collision-free content digest. -/
def tile_hash (t : List Pixel) : List Pixel := t

/-- The non-empty tiles of an image in visiting (row-major) order: exactly the
tiles every loop of the tool processes after its `is_empty_tile` guard. -/
def liveTiles (img : Img) (s : Nat) : List (List Pixel × Nat × Nat) :=
  (next_tile img s).filter (fun e => !is_empty_tile e.1)

/-- The texture-coordinate dictionary: tile hash to (index base, uv corners). -/
abbrev TexDict := List (List Pixel × Nat × List (ℚ × ℚ))

/-- The value `gen_tex_coords` stores for a non-empty atlas tile at pixel
origin (x, y): texture coordinates bl, tl, tr, br, translated term for term
from lines 38-46 of the source. -/
def uvEntry (img : Img) (tile_size x y : Nat) : List (ℚ × ℚ) :=
  let ox : ℚ := (x : ℚ) / (img.width : ℚ)
  let oy : ℚ := 1 - (y : ℚ) / (img.height : ℚ)
  [(ox, oy - ((tile_size : ℚ) / (img.height : ℚ))),
   (ox, oy),
   (ox + ((tile_size : ℚ) / (img.width : ℚ)), oy),
   (ox + ((tile_size : ℚ) / (img.width : ℚ)), oy - ((tile_size : ℚ) / (img.height : ℚ)))]

/-- Python dict assignment `d[k] = v`: replace the binding of `k` in place if
present, else append a fresh binding at the end. -/
def dictInsert (d : TexDict) (k : List Pixel) (v : Nat × List (ℚ × ℚ)) : TexDict :=
  match d with
  | [] => [(k, v)]
  | e :: rest => if e.1 = k then (k, v) :: rest else e :: dictInsert rest k v

/-- Python dict lookup `d[k]`, `none` standing for a raised `KeyError`. -/
def dictFind (d : TexDict) (k : List Pixel) : Option (Nat × List (ℚ × ℚ)) :=
  match d with
  | [] => none
  | e :: rest => if e.1 = k then some e.2 else dictFind rest k

/-- One iteration of the `gen_tex_coords` loop (lines 34-49): skip an empty
tile; otherwise store `(i, [bl, tl, tr, br])` under the tile hash and
advance `i` by 4. -/
def gtcStep (img : Img) (tile_size : Nat) (st : Nat × TexDict)
    (e : List Pixel × Nat × Nat) : Nat × TexDict :=
  if is_empty_tile e.1 then st
  else (st.1 + 4, dictInsert st.2 (tile_hash e.1) (st.1, uvEntry img tile_size e.2.1 e.2.2))

/-- `gen_tex_coords` (lines 24-51): fold the atlas tiles through `gtcStep`
starting from counter 1 and the empty dictionary. -/
def gen_tex_coords (img : Img) (tile_size : Nat) : TexDict :=
  ((next_tile img tile_size).foldl (gtcStep img tile_size) (1, [])).2

/-- The four vertex positions `gen_mesh` appends for a non-empty tile at pixel
origin (x, y), in order bl, tl, tr, br, translated term for term from
lines 65-68 of the source. -/
def quadVerts (img : Img) (tile_size x y : Nat) : List (ℚ × ℚ × ℚ) :=
  let W : ℚ := (img.width : ℚ)
  let H : ℚ := (img.height : ℚ)
  let xq : ℚ := (x : ℚ)
  let yq : ℚ := (y : ℚ)
  let s : ℚ := (tile_size : ℚ)
  [(-(xq - W / 2), -(yq + s) + H / 2, 0),
   (-(xq - W / 2), -yq + H / 2, 0),
   (-((xq + s) - W / 2), -yq + H / 2, 0),
   (-((xq + s) - W / 2), -(yq + s) + H / 2, 0)]

/-- The mesh builder output: vertex positions, faces as lists of
(vertex index, texcoord index) pairs, and the warnings `logging.warning`
emits, each recorded as the (row, column) pair the message interpolates. -/
structure Mesh where
  verts : List (ℚ × ℚ × ℚ)
  faces : List (List (Nat × Nat))
  warns : List (Nat × Nat)
deriving DecidableEq

/-- One iteration of the `gen_mesh` loop (lines 60-87): skip empty tiles;
append the four vertices and advance the vertex counter by 4; then either
record a lookup miss (with the tile grid row and column) or append the two
triangles. -/
def meshStep (img : Img) (tc : TexDict) (tile_size : Nat) (st : Nat × Mesh)
    (e : List Pixel × Nat × Nat) : Nat × Mesh :=
  if is_empty_tile e.1 then st
  else
    let cur := st.1 + 4
    let vs := st.2.verts ++ quadVerts img tile_size e.2.1 e.2.2
    match dictFind tc (tile_hash e.1) with
    | none => (cur, ⟨vs, st.2.faces, st.2.warns ++ [(e.2.2 / tile_size, e.2.1 / tile_size)]⟩)
    | some coords =>
      (cur, ⟨vs,
        st.2.faces ++
          [[(cur - 3, coords.1), (cur - 2, coords.1 + 1), (cur - 1, coords.1 + 2)],
           [(cur - 3, coords.1), (cur - 1, coords.1 + 2), (cur, coords.1 + 3)]],
        st.2.warns⟩)

/-- `gen_mesh` (lines 53-89). -/
def gen_mesh (img : Img) (tc : TexDict) (tile_size : Nat) : Mesh :=
  ((next_tile img tile_size).foldl (meshStep img tc tile_size) (0, ⟨[], [], []⟩)).2

/-- The tile-resolution occupancy array of `break_tile_map`, h rows by w
columns; the cell function is the shallow embedding of the mutable
2-dimensional list `arr`. -/
structure Grid where
  h : Nat
  w : Nat
  cell : Nat → Nat → Bool

/-- Python assignment `arr[r][c] = 1`: a raised index error, rendered as
`none`, whenever (r, c) lies outside the h by w array. -/
def setCell (g : Grid) (r c : Nat) : Option Grid :=
  if r < g.h ∧ c < g.w then
    some ⟨g.h, g.w, fun r' c' => if r' = r ∧ c' = c then true else g.cell r' c'⟩
  else none

/-- The occupancy-grid construction of `break_tile_map` (lines 99-109):
allocate a `floor(h/s)` by `floor(w/s)` array of zeros, then mark
`arr[y // s][x // s]` for every non-empty tile `next_tile` yields. -/
def buildGrid (img : Img) (tile_size : Nat) : Option Grid :=
  (next_tile img tile_size).foldl
    (fun og e => og.bind (fun g =>
      if is_empty_tile e.1 then some g
      else setCell g (e.2.2 / tile_size) (e.2.1 / tile_size)))
    (some ⟨img.height / tile_size, img.width / tile_size, fun _ _ => false⟩)

/-- The cell of the (successfully built) occupancy grid, `false` when the
construction failed or the coordinates are unset. -/
def gridCell (og : Option Grid) (r c : Nat) : Bool :=
  match og with
  | none => false
  | some g => g.cell r c

/-- The crop box `(left, top, right, bot)` a decomposed rectangle is reported
as, in pixel coordinates with right and bottom exclusive. -/
structure Box where
  left : Nat
  top : Nat
  right : Nat
  bot : Nat
deriving DecidableEq

/-- The row-major cell scan `for i in range(len(arr)): for j, t in
enumerate(arr[i])` over a grid whose dimensions never change. -/
def allCells (g : Grid) : List (Nat × Nat) :=
  (List.range g.h).flatMap (fun i => (List.range g.w).map (fun j => (i, j)))

/-- `_is_rect_full` (lines 154-169): true when every cell of the axis-aligned
span between corners `a` and `b` is set; a degenerate span with `a = b`
short-circuits to true. -/
def is_rect_full (g : Grid) (a b : Nat × Nat) : Bool :=
  if a = b then true
  else
    (List.range' (min a.1 b.1) (max a.1 b.1 + 1 - min a.1 b.1)).all (fun r =>
      (List.range' (min a.2 b.2) (max a.2 b.2 + 1 - min a.2 b.2)).all (fun c => g.cell r c))

/-- One candidate step of `_find_max_rect` (lines 133-150): skip cleared
cells; for a filled cell (i, j) whose span with (r, c) is full, compare the
area `(abs(r - i) + 1) * (abs(c - j) + 1)` against the best so far
(initially -1) and keep the larger, converted to pixel coordinates. -/
def findStep (g : Grid) (r c tile_size : Nat) (best : Int × Option Box)
    (ij : Nat × Nat) : Int × Option Box :=
  if g.cell ij.1 ij.2 = false then best
  else if is_rect_full g (r, c) ij then
    let tot : Int := Int.ofNat (((max r ij.1 - min r ij.1) + 1) * ((max c ij.2 - min c ij.2) + 1))
    if best.1 < tot then
      (tot, some ⟨min c ij.2 * tile_size, min r ij.1 * tile_size,
                  (max c ij.2 + 1) * tile_size, (max r ij.1 + 1) * tile_size⟩)
    else best
  else best

/-- `_find_max_rect` (lines 128-152). -/
def find_max_rect (g : Grid) (r c tile_size : Nat) : Option Box :=
  ((allCells g).foldl (findStep g r c tile_size) (-1, none)).2

/-- Cell (r, c) lies in the pixel box, through the very divisions the
clearing loops of `break_tile_map` use: rows `range(box[1] // s, box[3] // s)`
and columns `range(box[0] // s, box[2] // s)`. -/
def cellInBox (tile_size : Nat) (b : Box) (r c : Nat) : Prop :=
  b.top / tile_size ≤ r ∧ r < b.bot / tile_size ∧
    b.left / tile_size ≤ c ∧ c < b.right / tile_size

instance (tile_size : Nat) (b : Box) (r c : Nat) : Decidable (cellInBox tile_size b r c) := by
  unfold cellInBox
  infer_instance

/-- The clearing loops of `break_tile_map` (lines 122-124): set every cell of
the chosen box back to zero. -/
def clearBox (g : Grid) (b : Box) (tile_size : Nat) : Grid :=
  ⟨g.h, g.w, fun r c => if cellInBox tile_size b r c then false else g.cell r c⟩

/-- One position of the scan loop of `break_tile_map` (lines 115-124): if the
cell currently read is set, claim the maximal rectangle found from it,
record the box and clear it.  An exhausted `_find_max_rect` (which would
make Python crop `None`) is rendered as `none`; the decomposition theorems
prove it cannot occur. -/
def breakStep (tile_size : Nat) (st : Option (Grid × List Box)) (rc : Nat × Nat) :
    Option (Grid × List Box) :=
  st.bind (fun p =>
    if p.1.cell rc.1 rc.2 then
      match find_max_rect p.1 rc.1 rc.2 tile_size with
      | none => none
      | some b => some (clearBox p.1 b tile_size, p.2 ++ [b])
    else some p)

/-- The rectangle-decomposition loop of `break_tile_map` (lines 112-126),
acting on an already-built occupancy grid. -/
def break_rects (g : Grid) (tile_size : Nat) : Option (List Box) :=
  ((allCells g).foldl (breakStep tile_size) (some (g, []))).map (fun p => p.2)

/-- `break_tile_map` (lines 91-126): build the occupancy grid from the image,
then decompose it; the recorded boxes are the crop regions of the returned
portion images.  `none` renders a raised exception. -/
def break_tile_map (img : Img) (tile_size : Nat) : Option (List Box) :=
  (buildGrid img tile_size).bind (fun g => break_rects g tile_size)

/-- One line of the OBJ output of `write_obj_file` (lines 171-189), modelled
structurally: the group line, a vertex line, a texture-coordinate line, or a
face line of (vertex index, texcoord index) pairs. -/
inductive ObjLine where
  | gname (name : String)
  | v (x y z : ℚ)
  | vt (u w : ℚ)
  | f (ps : List (Nat × Nat))
deriving DecidableEq

def isV (l : ObjLine) : Bool :=
  match l with
  | ObjLine.v _ _ _ => true
  | _ => false

def isVT (l : ObjLine) : Bool :=
  match l with
  | ObjLine.vt _ _ => true
  | _ => false

def isF (l : ObjLine) : Bool :=
  match l with
  | ObjLine.f _ => true
  | _ => false

/-- `write_obj_file` (lines 171-189): the group line, one v line per vertex,
then the dictionary values sorted ascending — the Python `sorted` compares
the `(indexBase, uvs)` tuples, which over any dictionary `gen_tex_coords`
produces orders purely by the pairwise-distinct index base, modelled here by
sorting on the base — with their four vt lines each in stored order, then
one f line per face. -/
def write_obj_file (name : String) (verts : List (ℚ × ℚ × ℚ)) (tc : TexDict)
    (faces : List (List (Nat × Nat))) : List ObjLine :=
  [ObjLine.gname name]
    ++ verts.map (fun p => ObjLine.v p.1 p.2.1 p.2.2)
    ++ (List.insertionSort (fun a b => a.1 ≤ b.1) (tc.map (fun e => e.2))).flatMap
        (fun b => b.2.map (fun q => ObjLine.vt q.1 q.2))
    ++ faces.map ObjLine.f

/-! ## Closed forms and specification-side definitions -/

/-- The face lists `gen_mesh` appends while scanning the given (already
filtered, non-empty) tiles, the vertex counter standing at `n` on entry: a
missed lookup contributes no face, a found entry with index base `t0`
contributes the clockwise triangles
`[(v-3, t0), (v-2, t0+1), (v-1, t0+2)]` and
`[(v-3, t0), (v-1, t0+2), (v, t0+3)]` where `v = n + 4` is the last vertex
index of the tile.  This is the closed form of the spec's description. -/
def facesFrom (tc : TexDict) : Nat → List (List Pixel × Nat × Nat) → List (List (Nat × Nat))
  | _, [] => []
  | n, e :: l =>
    (match dictFind tc (tile_hash e.1) with
     | none => []
     | some coords =>
       [[(n + 1, coords.1), (n + 2, coords.1 + 1), (n + 3, coords.1 + 2)],
        [(n + 1, coords.1), (n + 3, coords.1 + 2), (n + 4, coords.1 + 3)]])
      ++ facesFrom tc (n + 4) l

/-- The (grid row, grid column) pairs reported for the tiles of the given
list whose hash the atlas dictionary does not contain. -/
def missWarns (tc : TexDict) (tile_size : Nat)
    (l : List (List Pixel × Nat × Nat)) : List (Nat × Nat) :=
  l.filterMap (fun e =>
    match dictFind tc (tile_hash e.1) with
    | some _ => none
    | none => some (e.2.2 / tile_size, e.2.1 / tile_size))

/-- The sequence of dictionary assignments `gen_tex_coords` performs over the
given (already filtered, non-empty) atlas tiles, the index counter standing
at `i0` on entry: the n-th listed tile is assigned index base `i0 + 4 * n`
together with its uv quad. -/
def tcAssignFrom (img : Img) (s : Nat) :
    Nat → List (List Pixel × Nat × Nat) → List (List Pixel × Nat × List (ℚ × ℚ))
  | _, [] => []
  | i0, e :: l => (tile_hash e.1, (i0, uvEntry img s e.2.1 e.2.2)) :: tcAssignFrom img s (i0 + 4) l

/-- The value of the last assignment with key `k` in the assignment list,
later assignments taking precedence: the Python dict semantics of repeated
`d[k] = v`. -/
def lastAssign (k : List Pixel) : List (List Pixel × Nat × List (ℚ × ℚ)) →
    Option (Nat × List (ℚ × ℚ))
  | [] => none
  | kv :: l =>
    match lastAssign k l with
    | some v => some v
    | none => if kv.1 = k then some kv.2 else none

/-- What `_find_max_rect` guarantees about any box it returns: the box is the
pixel conversion of a span between the seed (r, c) and some in-range cell
(i, j), every cell of which is currently set. -/
def FindCand (g : Grid) (s r c : Nat) (b : Box) : Prop :=
  ∃ i j, i < g.h ∧ j < g.w ∧
    b = ⟨min c j * s, min r i * s, (max c j + 1) * s, (max r i + 1) * s⟩ ∧
    ∀ r' c', min r i ≤ r' → r' ≤ max r i → min c j ≤ c' → c' ≤ max c j →
      g.cell r' c' = true

/-- A well-formed decomposition box with respect to the original grid: the
pixel conversion of an in-range cell span, every cell of which was set. -/
def BoxOK (g0 : Grid) (s : Nat) (b : Box) : Prop :=
  ∃ r1 r2 c1 c2, r1 ≤ r2 ∧ r2 < g0.h ∧ c1 ≤ c2 ∧ c2 < g0.w ∧
    b = ⟨c1 * s, r1 * s, (c2 + 1) * s, (r2 + 1) * s⟩ ∧
    ∀ r c, r1 ≤ r → r ≤ r2 → c1 ≤ c → c ≤ c2 → g0.cell r c = true

/-- The invariant of the scan loop of `break_tile_map`: `st` is the current
grid and accumulated boxes, `vis` the positions already scanned, `g0` the
original grid. -/
structure DecompInv (g0 : Grid) (s : Nat) (st : Grid × List Box)
    (vis : List (Nat × Nat)) : Prop where
  hh : st.1.h = g0.h
  hw : st.1.w = g0.w
  mono : ∀ r c, st.1.cell r c = true → g0.cell r c = true
  okBoxes : ∀ b ∈ st.2, BoxOK g0 s b
  disj : List.Pairwise (fun b1 b2 => ∀ r c, ¬(cellInBox s b1 r c ∧ cellInBox s b2 r c)) st.2
  cleared : ∀ b ∈ st.2, ∀ r c, cellInBox s b r c → st.1.cell r c = false
  cover : ∀ r c, g0.cell r c = true → st.1.cell r c = true ∨ ∃ b ∈ st.2, cellInBox s b r c
  scanned : ∀ p ∈ vis, st.1.cell p.1 p.2 = false

/-- The uv quad of the specification, in its words: `ox = x / atlasWidth`,
`oy = 1 - y / atlasHeight`, corners
`bottomLeft = (ox, oy - tileSize/atlasHeight)`, `topLeft = (ox, oy)`,
`topRight = (ox + tileSize/atlasWidth, oy)`,
`bottomRight = (ox + tileSize/atlasWidth, oy - tileSize/atlasHeight)`,
stored in that order. -/
def uvQuadSpec (W H s x y : ℚ) : List (ℚ × ℚ) :=
  let ox : ℚ := x / W
  let oy : ℚ := 1 - y / H
  [(ox, oy - s / H), (ox, oy), (ox + s / W, oy), (ox + s / W, oy - s / H)]

/-- The unmirrored vertex quad of the specification, in its words:
`bl = (x - W/2, -(y+s) + H/2, 0)`, `tl = (x - W/2, -y + H/2, 0)`,
`tr = (x + s - W/2, -y + H/2, 0)`, `br = (x + s - W/2, -(y+s) + H/2, 0)`. -/
def specQuadUnmirrored (W H s x y : ℚ) : List (ℚ × ℚ × ℚ) :=
  [(x - W / 2, -(y + s) + H / 2, 0),
   (x - W / 2, -y + H / 2, 0),
   (x + s - W / 2, -y + H / 2, 0),
   (x + s - W / 2, -(y + s) + H / 2, 0)]

/-- Negation of the X component of a vertex: the specification's mirroring. -/
def negX (p : ℚ × ℚ × ℚ) : ℚ × ℚ × ℚ := (-p.1, p.2.1, p.2.2)

/-! ## Concrete test images and grids -/

/-- A 2 by 3 image whose only non-transparent pixels sit on the partial
bottom row (height 3 is not a multiple of tile size 2). -/
def imgBad : Img := ⟨2, 3, fun _ y => if y = 2 then ⟨0, 0, 0, 1⟩ else ⟨0, 0, 0, 0⟩⟩

/-- A fully transparent 2 by 2 image. -/
def imgEmpty2 : Img := ⟨2, 2, fun _ _ => ⟨0, 0, 0, 0⟩⟩

/-- A 2 by 1 atlas whose two size-1 tiles carry identical pixel content. -/
def dupAtlas : Img := ⟨2, 1, fun _ _ => ⟨0, 0, 0, 1⟩⟩

/-- A single non-transparent pixel. -/
def img1 : Img := ⟨1, 1, fun _ _ => ⟨0, 0, 0, 1⟩⟩

/-- A fully opaque 16 by 16 image: the map and atlas of the concrete
serializer scenario. -/
def img16 : Img := ⟨16, 16, fun _ _ => ⟨0, 0, 0, 255⟩⟩

/-- The atlas index built from the 16 by 16 scenario atlas. -/
def tc16 : TexDict := gen_tex_coords img16 16

/-- A 2 by 2 image with exactly one non-transparent pixel at the origin. -/
def img2w : Img := ⟨2, 2, fun x y => if x = 0 ∧ y = 0 then ⟨0, 0, 0, 1⟩ else ⟨0, 0, 0, 0⟩⟩

/-- A one-row, two-column occupancy grid with both cells filled. -/
def gridOne : Grid := ⟨1, 2, fun _ _ => true⟩

/-- The output group name used by the concrete serializer scenario. -/
def objName : String := ""

/-! ## Generic fold and list helpers -/

theorem foldl_preserve {α β : Type _} (f : β → α → β) (P : β → Prop)
    (l : List α) (init : β) (h0 : P init)
    (hstep : ∀ acc x, x ∈ l → P acc → P (f acc x)) : P (l.foldl f init) := by
  induction l generalizing init with
  | nil => exact h0
  | cons x l ih =>
    simp only [List.foldl_cons]
    exact ih (f init x) (hstep init x (by simp) h0)
      (fun acc y hy hP => hstep acc y (by simp [hy]) hP)

theorem mem_pyRange {stop step x : Nat} :
    x ∈ pyRange stop step ↔ ∃ k, k < (stop + step - 1) / step ∧ x = k * step := by
  simp only [pyRange, List.mem_map, List.mem_range]
  constructor
  · rintro ⟨k, hk, rfl⟩
    exact ⟨k, hk, rfl⟩
  · rintro ⟨k, hk, rfl⟩
    exact ⟨k, hk, rfl⟩

theorem mem_next_tile {img : Img} {s : Nat} {e : List Pixel × Nat × Nat}
    (h : e ∈ next_tile img s) :
    ∃ kx ky, kx < (img.width + s - 1) / s ∧ ky < (img.height + s - 1) / s ∧
      e = (cropTile img (kx * s) (ky * s) s, kx * s, ky * s) := by
  simp only [next_tile, List.mem_flatMap, List.mem_map] at h
  obtain ⟨j, hj, i, hi, rfl⟩ := h
  obtain ⟨ky, hky, rfl⟩ := mem_pyRange.1 hj
  obtain ⟨kx, hkx, rfl⟩ := mem_pyRange.1 hi
  exact ⟨kx, ky, hkx, hky, rfl⟩

/-! ## The mesh builder: closed form of the fold -/

theorem gen_mesh_fold (img : Img) (tc : TexDict) (s : Nat)
    (l : List (List Pixel × Nat × Nat)) (n : Nat) (m : Mesh) :
    l.foldl (meshStep img tc s) (n, m) =
      (n + 4 * (l.filter (fun e => !is_empty_tile e.1)).length,
       ⟨m.verts ++ (l.filter (fun e => !is_empty_tile e.1)).flatMap
           (fun e => quadVerts img s e.2.1 e.2.2),
        m.faces ++ facesFrom tc n (l.filter (fun e => !is_empty_tile e.1)),
        m.warns ++ missWarns tc s (l.filter (fun e => !is_empty_tile e.1))⟩) := by
  induction l generalizing n m with
  | nil => simp [missWarns, facesFrom]
  | cons e l ih =>
    by_cases he : is_empty_tile e.1
    · rw [List.foldl_cons, show meshStep img tc s (n, m) e = (n, m) by
        simp [meshStep, he], ih]
      simp [he]
    · have hfil : (e :: l).filter (fun e => !is_empty_tile e.1) =
          e :: l.filter (fun e => !is_empty_tile e.1) := by
        simp [List.filter_cons, he]
      rw [List.foldl_cons, hfil]
      cases hfind : dictFind tc (tile_hash e.1) with
      | none =>
        have hstep : meshStep img tc s (n, m) e =
            (n + 4, ⟨m.verts ++ quadVerts img s e.2.1 e.2.2, m.faces,
              m.warns ++ [(e.2.2 / s, e.2.1 / s)]⟩) := by
          simp [meshStep, he, hfind]
        rw [hstep, ih]
        simp only [facesFrom, missWarns, hfind, List.filterMap_cons, List.length_cons,
          List.flatMap_cons, List.nil_append, List.append_assoc, List.cons_append,
          List.singleton_append, Prod.mk.injEq, Mesh.mk.injEq, true_and, and_true]
        omega
      | some coords =>
        have hstep : meshStep img tc s (n, m) e =
            (n + 4, ⟨m.verts ++ quadVerts img s e.2.1 e.2.2,
              m.faces ++
                [[(n + 4 - 3, coords.1), (n + 4 - 2, coords.1 + 1), (n + 4 - 1, coords.1 + 2)],
                 [(n + 4 - 3, coords.1), (n + 4 - 1, coords.1 + 2), (n + 4, coords.1 + 3)]],
              m.warns⟩) := by
          simp [meshStep, he, hfind]
        rw [hstep, ih]
        simp only [show n + 4 - 3 = n + 1 from rfl, show n + 4 - 2 = n + 2 from rfl,
          show n + 4 - 1 = n + 3 from rfl, facesFrom, missWarns, hfind,
          List.filterMap_cons, List.length_cons, List.flatMap_cons, List.append_assoc,
          List.cons_append, List.nil_append, Prod.mk.injEq, Mesh.mk.injEq, true_and, and_true]
        omega

/-- `gen_mesh` in closed form over the non-empty tiles of the map. -/
theorem gen_mesh_eq (img : Img) (tc : TexDict) (s : Nat) :
    gen_mesh img tc s =
      ⟨(liveTiles img s).flatMap (fun e => quadVerts img s e.2.1 e.2.2),
       facesFrom tc 0 (liveTiles img s),
       missWarns tc s (liveTiles img s)⟩ := by
  rw [gen_mesh, gen_mesh_fold]
  simp [liveTiles]

theorem facesFrom_length (tc : TexDict) :
    ∀ (n : Nat) (l : List (List Pixel × Nat × Nat)),
      (facesFrom tc n l).length =
        2 * l.countP (fun e => (dictFind tc (tile_hash e.1)).isSome)
  | _, [] => by simp [facesFrom]
  | n, e :: l => by
    rw [facesFrom]
    cases hfind : dictFind tc (tile_hash e.1) with
    | none =>
      simp only [List.nil_append, List.countP_cons, hfind, Option.isSome_none,
        Bool.false_eq_true, if_neg, facesFrom_length tc (n + 4) l]
      simp
    | some coords =>
      simp only [List.countP_cons, hfind, Option.isSome_some, List.length_append,
        facesFrom_length tc (n + 4) l]
      simp
      ring

theorem flatMap_quad_length (img : Img) (s : Nat) :
    ∀ l : List (List Pixel × Nat × Nat),
      (l.flatMap (fun e => quadVerts img s e.2.1 e.2.2)).length = 4 * l.length
  | [] => by simp
  | e :: l => by
    have h4 : (quadVerts img s e.2.1 e.2.2).length = 4 := rfl
    rw [List.flatMap_cons, List.length_append, h4, flatMap_quad_length img s l,
      List.length_cons]
    ring

/-! ## The atlas indexer: closed form of the fold -/

theorem dictFind_dictInsert (d : TexDict) (k : List Pixel) (v : Nat × List (ℚ × ℚ))
    (k' : List Pixel) :
    dictFind (dictInsert d k v) k' = if k = k' then some v else dictFind d k' := by
  induction d with
  | nil =>
    by_cases h : k = k' <;> simp [dictInsert, dictFind, h]
  | cons e d ih =>
    rw [dictInsert]
    by_cases he : e.1 = k
    · rw [if_pos he]
      by_cases h : k = k'
      · simp [dictFind, h]
      · have h2 : ¬(e.1 = k') := by rw [he]; exact h
        simp [dictFind, h, h2]
    · rw [if_neg he]
      by_cases h2 : e.1 = k'
      · have h : ¬(k = k') := by
          intro hkk
          exact he (by rw [h2, hkk])
        simp [dictFind, h, h2]
      · simp only [dictFind, ih, if_neg h2]

theorem mem_dictInsert {d : TexDict} {k : List Pixel} {v : Nat × List (ℚ × ℚ)}
    {ent : List Pixel × Nat × List (ℚ × ℚ)} (h : ent ∈ dictInsert d k v) :
    ent = (k, v) ∨ ent ∈ d := by
  induction d with
  | nil => simpa [dictInsert] using h
  | cons e d ih =>
    rw [dictInsert] at h
    by_cases he : e.1 = k
    · rw [if_pos he] at h
      rcases List.mem_cons.1 h with h1 | h1
      · exact Or.inl h1
      · exact Or.inr (List.mem_cons_of_mem _ h1)
    · rw [if_neg he] at h
      rcases List.mem_cons.1 h with h1 | h1
      · exact Or.inr (h1 ▸ List.mem_cons_self _ _)
      · rcases ih h1 with h2 | h2
        · exact Or.inl h2
        · exact Or.inr (List.mem_cons_of_mem _ h2)

theorem mem_foldl_dictInsert {l : List (List Pixel × Nat × List (ℚ × ℚ))} :
    ∀ {d0 : TexDict} {ent : List Pixel × Nat × List (ℚ × ℚ)},
      ent ∈ l.foldl (fun d kv => dictInsert d kv.1 kv.2) d0 → ent ∈ d0 ∨ ent ∈ l := by
  induction l with
  | nil => exact fun h => Or.inl h
  | cons kv l ih =>
    intro d0 ent h
    rw [List.foldl_cons] at h
    rcases ih h with h1 | h1
    · rcases mem_dictInsert h1 with h2 | h2
      · exact Or.inr (h2 ▸ List.mem_cons_self _ _)
      · exact Or.inl h2
    · exact Or.inr (List.mem_cons_of_mem _ h1)

theorem dictFind_foldl_dictInsert (k : List Pixel) :
    ∀ (l : List (List Pixel × Nat × List (ℚ × ℚ))) (d0 : TexDict),
      dictFind (l.foldl (fun d kv => dictInsert d kv.1 kv.2) d0) k =
        match lastAssign k l with
        | some v => some v
        | none => dictFind d0 k := by
  intro l
  induction l with
  | nil => intro d0; simp [lastAssign]
  | cons kv l ih =>
    intro d0
    rw [List.foldl_cons, ih, lastAssign]
    cases hl : lastAssign k l with
    | some v => simp
    | none =>
      simp only [dictFind_dictInsert]
      by_cases h : kv.1 = k <;> simp [h]

theorem gtc_fold (img : Img) (s : Nat) :
    ∀ (l : List (List Pixel × Nat × Nat)) (i0 : Nat) (d : TexDict),
      (l.foldl (gtcStep img s) (i0, d)).2 =
        (tcAssignFrom img s i0 (l.filter (fun e => !is_empty_tile e.1))).foldl
          (fun d' kv => dictInsert d' kv.1 kv.2) d := by
  intro l
  induction l with
  | nil => intro i0 d; simp [tcAssignFrom]
  | cons e l ih =>
    intro i0 d
    by_cases he : is_empty_tile e.1
    · rw [List.foldl_cons, show gtcStep img s (i0, d) e = (i0, d) by simp [gtcStep, he]]
      simp [he, ih]
    · rw [List.foldl_cons, show gtcStep img s (i0, d) e =
        (i0 + 4, dictInsert d (tile_hash e.1) (i0, uvEntry img s e.2.1 e.2.2)) by
          simp [gtcStep, he]]
      rw [ih]
      simp [List.filter_cons, he, tcAssignFrom]

/-- `gen_tex_coords` in closed form: the dictionary obtained by performing,
in order, the assignment of index base `1 + 4 * n` and uv quad to the hash
of the n-th non-empty atlas tile. -/
theorem gen_tex_coords_eq (img : Img) (s : Nat) :
    gen_tex_coords img s =
      (tcAssignFrom img s 1 (liveTiles img s)).foldl
        (fun d kv => dictInsert d kv.1 kv.2) [] := by
  rw [gen_tex_coords, gtc_fold]
  rfl

theorem mem_tcAssignFrom {img : Img} {s : Nat} :
    ∀ {l : List (List Pixel × Nat × Nat)} {i0 : Nat}
      {ent : List Pixel × Nat × List (ℚ × ℚ)},
      ent ∈ tcAssignFrom img s i0 l →
        ∃ e ∈ l, ∃ b, i0 ≤ b ∧ ent = (tile_hash e.1, (b, uvEntry img s e.2.1 e.2.2)) := by
  intro l
  induction l with
  | nil => intro i0 ent h; simp [tcAssignFrom] at h
  | cons e l ih =>
    intro i0 ent h
    rw [tcAssignFrom] at h
    rcases List.mem_cons.1 h with h1 | h1
    · exact ⟨e, List.mem_cons_self _ _, i0, le_refl _, h1⟩
    · obtain ⟨e', he', b, hb, hent⟩ := ih h1
      exact ⟨e', List.mem_cons_of_mem _ he', b, by omega, hent⟩

theorem pairwise_dictInsert {d : TexDict} {k : List Pixel} {v : Nat × List (ℚ × ℚ)}
    (hfresh : ∀ e ∈ d, e.2.1 ≠ v.1)
    (hpw : List.Pairwise (fun a b => a.2.1 ≠ b.2.1) d) :
    List.Pairwise (fun a b => a.2.1 ≠ b.2.1) (dictInsert d k v) := by
  induction d with
  | nil => simp [dictInsert]
  | cons e d ih =>
    rw [dictInsert]
    by_cases he : e.1 = k
    · rw [if_pos he]
      refine List.Pairwise.cons ?_ (List.Pairwise.sublist (List.sublist_cons_self e d) hpw)
      intro q hq
      exact fun hbad => hfresh q (List.mem_cons_of_mem _ hq) hbad.symm
    · rw [if_neg he]
      rcases List.pairwise_cons.1 hpw with ⟨hhead, htail⟩
      refine List.Pairwise.cons ?_ (ih (fun e' he' => hfresh e' (List.mem_cons_of_mem _ he')) htail)
      intro q hq
      rcases mem_dictInsert hq with h1 | h1
      · rw [h1]
        exact hfresh e (List.mem_cons_self _ _)
      · exact hhead q h1

/-- The index bases stored in the atlas dictionary are pairwise distinct:
every assignment uses a base strictly below the running counter, and the
counter only grows. -/
theorem gen_tex_coords_bases_distinct (img : Img) (s : Nat) :
    List.Pairwise (fun a b => a.2.1 ≠ b.2.1) (gen_tex_coords img s) := by
  have h := foldl_preserve (gtcStep img s)
    (fun st => (∀ e ∈ st.2, e.2.1 < st.1) ∧
      List.Pairwise (fun a b => a.2.1 ≠ b.2.1) st.2)
    (next_tile img s) (1, []) (by simp)
    (by
      intro acc e _ hP
      rw [gtcStep]
      by_cases he : is_empty_tile e.1
      · rw [if_pos he]; exact hP
      · rw [if_neg he]
        rcases hP with ⟨hlt, hpw⟩
        constructor
        · intro e' he'
          rcases mem_dictInsert he' with h1 | h1
          · rw [h1]; show acc.1 < acc.1 + 4; omega
          · have := hlt e' h1; omega
        · exact pairwise_dictInsert (fun e' he' => Nat.ne_of_lt (hlt e' he')) hpw)
  exact h.2

/-! ## The rectangle decomposer: candidate search -/

theorem mem_allCells {g : Grid} {p : Nat × Nat} :
    p ∈ allCells g ↔ p.1 < g.h ∧ p.2 < g.w := by
  simp only [allCells, List.mem_flatMap, List.mem_map, List.mem_range]
  constructor
  · rintro ⟨i, hi, j, hj, rfl⟩
    exact ⟨hi, hj⟩
  · rintro ⟨h1, h2⟩
    exact ⟨p.1, h1, p.2, h2, rfl⟩

/-- A true `_is_rect_full` together with a set corner means every cell of the
spanned rectangle is set (the degenerate span is handled by the corner). -/
theorem is_rect_full_span {g : Grid} {a b : Nat × Nat}
    (hfull : is_rect_full g a b = true) (hb : g.cell b.1 b.2 = true) :
    ∀ r c, min a.1 b.1 ≤ r → r ≤ max a.1 b.1 → min a.2 b.2 ≤ c → c ≤ max a.2 b.2 →
      g.cell r c = true := by
  intro r c hr1 hr2 hc1 hc2
  by_cases hab : a = b
  · subst hab
    simp only [min_self, max_self] at hr1 hr2 hc1 hc2
    have hr : r = a.1 := le_antisymm hr2 hr1
    have hc : c = a.2 := le_antisymm hc2 hc1
    rw [hr, hc]
    exact hb
  · rw [is_rect_full, if_neg hab] at hfull
    have h1 := List.all_eq_true.1 hfull r
      (List.mem_range'_1.2 ⟨hr1, by
        have := min_le_max (a := a.1) (b := b.1)
        omega⟩)
    have h2 := List.all_eq_true.1 h1 c
      (List.mem_range'_1.2 ⟨hc1, by
        have := min_le_max (a := a.2) (b := b.2)
        omega⟩)
    exact h2

theorem findStep_cases (g : Grid) (r c s : Nat) (best : Int × Option Box) (ij : Nat × Nat) :
    findStep g r c s best ij = best ∨
      ∃ tot bx, findStep g r c s best ij = (tot, some bx) := by
  rw [findStep]
  by_cases h1 : g.cell ij.1 ij.2 = false
  · rw [if_pos h1]; exact Or.inl rfl
  · rw [if_neg h1]
    by_cases h2 : is_rect_full g (r, c) ij = true
    · rw [if_pos h2]
      dsimp only
      split
      · exact Or.inr ⟨_, _, rfl⟩
      · exact Or.inl rfl
    · rw [if_neg h2]; exact Or.inl rfl

theorem find_sound {g : Grid} {r c s : Nat} {b : Box}
    (h : find_max_rect g r c s = some b) : FindCand g s r c b := by
  rw [find_max_rect] at h
  have hinv := foldl_preserve (findStep g r c s)
    (fun best => best.2 = none ∨ ∃ b', best.2 = some b' ∧ FindCand g s r c b')
    (allCells g) (-1, none) (Or.inl rfl)
    (by
      intro acc ij hij hP
      rw [findStep]
      by_cases h1 : g.cell ij.1 ij.2 = false
      · rw [if_pos h1]; exact hP
      · rw [if_neg h1]
        by_cases h2 : is_rect_full g (r, c) ij = true
        · rw [if_pos h2]
          dsimp only
          split
          · refine Or.inr ⟨_, rfl, ij.1, ij.2, (mem_allCells.1 hij).1, (mem_allCells.1 hij).2,
              rfl, ?_⟩
            have hcell : g.cell ij.1 ij.2 = true := by
              revert h1
              cases g.cell ij.1 ij.2 <;> simp
            intro r' c' hr1 hr2 hc1 hc2
            exact is_rect_full_span h2 hcell r' c' hr1 hr2 hc1 hc2
          · exact hP
        · rw [if_neg h2]; exact hP)
  rcases hinv with h0 | ⟨b', hb', hc⟩
  · rw [h0] at h
    exact absurd h (by simp)
  · rw [hb'] at h
    rw [← Option.some.inj h]
    exact hc

theorem findStep_isSome {g : Grid} {r c s : Nat} {best : Int × Option Box}
    (h : best.2.isSome = true) (ij : Nat × Nat) :
    ((findStep g r c s best ij).2).isSome = true := by
  rcases findStep_cases g r c s best ij with heq | ⟨tot, bx, heq⟩
  · rw [heq]; exact h
  · rw [heq]; rfl

theorem find_complete {g : Grid} {r c : Nat} (s : Nat) (hcell : g.cell r c = true)
    (hr : r < g.h) (hc : c < g.w) : ∃ b, find_max_rect g r c s = some b := by
  have hmem : (r, c) ∈ allCells g := mem_allCells.2 ⟨hr, hc⟩
  obtain ⟨l1, l2, hsplit⟩ := List.append_of_mem hmem
  rw [find_max_rect, hsplit, List.foldl_append, List.foldl_cons]
  have hQ1 := foldl_preserve (findStep g r c s)
    (fun best => best = ((-1 : Int), (none : Option Box)) ∨ best.2.isSome = true)
    l1 (-1, none) (Or.inl rfl)
    (by
      intro acc ij _ hP
      rcases findStep_cases g r c s acc ij with heq | ⟨tot, bx, heq⟩
      · rw [heq]; exact hP
      · rw [heq]; exact Or.inr rfl)
  have hsome : ((findStep g r c s (l1.foldl (findStep g r c s) (-1, none)) (r, c)).2).isSome = true := by
    set acc1 := l1.foldl (findStep g r c s) (-1, none) with hacc1
    rw [findStep]
    have hnf : ¬(g.cell (r, c).1 (r, c).2 = false) := by simp [hcell]
    rw [if_neg hnf]
    have hfull : is_rect_full g (r, c) (r, c) = true := by
      rw [is_rect_full, if_pos rfl]
    rw [if_pos hfull]
    dsimp only
    rcases hQ1 with heq | hsome1
    · rw [heq]
      norm_num
    · split
      · rfl
      · exact hsome1
  have hfinal := foldl_preserve (findStep g r c s)
    (fun best => best.2.isSome = true) l2 _ hsome
    (fun acc ij _ hP => findStep_isSome hP ij)
  exact Option.isSome_iff_exists.1 hfinal

/-! ## The rectangle decomposer: loop invariant -/

theorem cellInBox_mk {s : Nat} (hs : 0 < s) (r1 r2 c1 c2 r c : Nat) :
    cellInBox s ⟨c1 * s, r1 * s, (c2 + 1) * s, (r2 + 1) * s⟩ r c ↔
      (r1 ≤ r ∧ r ≤ r2 ∧ c1 ≤ c ∧ c ≤ c2) := by
  unfold cellInBox
  rw [show (Box.mk (c1 * s) (r1 * s) ((c2 + 1) * s) ((r2 + 1) * s)).top = r1 * s from rfl,
    show (Box.mk (c1 * s) (r1 * s) ((c2 + 1) * s) ((r2 + 1) * s)).bot = (r2 + 1) * s from rfl,
    show (Box.mk (c1 * s) (r1 * s) ((c2 + 1) * s) ((r2 + 1) * s)).left = c1 * s from rfl,
    show (Box.mk (c1 * s) (r1 * s) ((c2 + 1) * s) ((r2 + 1) * s)).right = (c2 + 1) * s from rfl,
    Nat.mul_div_left r1 hs, Nat.mul_div_left (r2 + 1) hs, Nat.mul_div_left c1 hs,
    Nat.mul_div_left (c2 + 1) hs]
  omega

theorem break_loop (g0 : Grid) (s : Nat) (hs : 0 < s) :
    ∀ (todo : List (Nat × Nat)) (vis : List (Nat × Nat)) (st : Grid × List Box),
      (∀ p ∈ todo, p.1 < g0.h ∧ p.2 < g0.w) →
      DecompInv g0 s st vis →
      ∃ st', todo.foldl (breakStep s) (some st) = some st' ∧
        DecompInv g0 s st' (vis ++ todo) := by
  intro todo
  induction todo with
  | nil =>
    intro vis st _ hInv
    exact ⟨st, rfl, by simpa using hInv⟩
  | cons p todo ih =>
    intro vis st hbound hInv
    have hp := hbound p (List.mem_cons_self _ _)
    have hbound' : ∀ q ∈ todo, q.1 < g0.h ∧ q.2 < g0.w :=
      fun q hq => hbound q (List.mem_cons_of_mem _ hq)
    rw [List.foldl_cons]
    have hstep : breakStep s (some st) p =
        (if st.1.cell p.1 p.2 then
          match find_max_rect st.1 p.1 p.2 s with
          | none => none
          | some b => some (clearBox st.1 b s, st.2 ++ [b])
        else some st) := rfl
    by_cases hcell : st.1.cell p.1 p.2 = true
    · obtain ⟨b, hfind⟩ := find_complete s hcell (hInv.hh ▸ hp.1) (hInv.hw ▸ hp.2)
      rw [hstep, if_pos hcell, hfind]
      obtain ⟨i, j, hi, hj, hbox, hspan⟩ := find_sound hfind
      have hcb : ∀ r c, cellInBox s b r c ↔
          (min p.1 i ≤ r ∧ r ≤ max p.1 i ∧ min p.2 j ≤ c ∧ c ≤ max p.2 j) := by
        intro r c
        rw [hbox]
        exact cellInBox_mk hs (min p.1 i) (max p.1 i) (min p.2 j) (max p.2 j) r c
      have hfill : ∀ r c, cellInBox s b r c → st.1.cell r c = true := by
        intro r c h
        obtain ⟨h1, h2, h3, h4⟩ := (hcb r c).1 h
        exact hspan r c h1 h2 h3 h4
      have hclear : ∀ r c, (clearBox st.1 b s).cell r c =
          if cellInBox s b r c then false else st.1.cell r c := fun r c => rfl
      have hnew : DecompInv g0 s (clearBox st.1 b s, st.2 ++ [b]) (vis ++ [p]) := by
        refine ⟨hInv.hh, hInv.hw, ?_, ?_, ?_, ?_, ?_, ?_⟩
        · intro r c h
          rw [hclear] at h
          by_cases hin : cellInBox s b r c
          · rw [if_pos hin] at h; cases h
          · rw [if_neg hin] at h; exact hInv.mono r c h
        · intro b' hb'
          rcases List.mem_append.1 hb' with h1 | h1
          · exact hInv.okBoxes b' h1
          · rw [List.mem_singleton.1 h1]
            refine ⟨min p.1 i, max p.1 i, min p.2 j, max p.2 j, min_le_max,
              ?_, min_le_max, ?_, hbox, ?_⟩
            · have h1 := hInv.hh ▸ hp.1
              have h2 := hInv.hh ▸ hi
              omega
            · have h1 := hInv.hw ▸ hp.2
              have h2 := hInv.hw ▸ hj
              omega
            · intro r c h1 h2 h3 h4
              exact hInv.mono r c (hspan r c h1 h2 h3 h4)
        · rw [List.pairwise_append]
          refine ⟨hInv.disj, List.pairwise_singleton _ _, ?_⟩
          intro b1 hb1 b2 hb2 r c hboth
          rw [List.mem_singleton.1 hb2] at hboth
          have h1 := hInv.cleared b1 hb1 r c hboth.1
          have h2 := hfill r c hboth.2
          rw [h1] at h2
          cases h2
        · intro b' hb' r c hin
          rw [hclear]
          rcases List.mem_append.1 hb' with h1 | h1
          · by_cases h2 : cellInBox s b r c
            · rw [if_pos h2]
            · rw [if_neg h2]
              exact hInv.cleared b' h1 r c hin
          · rw [List.mem_singleton.1 h1] at hin
            rw [if_pos hin]
        · intro r c hg0
          rcases hInv.cover r c hg0 with h1 | ⟨b', hb', h2⟩
          · by_cases h2 : cellInBox s b r c
            · exact Or.inr ⟨b, List.mem_append.2 (Or.inr (List.mem_singleton.2 rfl)), h2⟩
            · refine Or.inl ?_
              rw [hclear, if_neg h2]
              exact h1
          · exact Or.inr ⟨b', List.mem_append.2 (Or.inl hb'), h2⟩
        · intro q hq
          rcases List.mem_append.1 hq with h1 | h1
          · rw [hclear]
            by_cases h2 : cellInBox s b q.1 q.2
            · rw [if_pos h2]
            · rw [if_neg h2]
              exact hInv.scanned q h1
          · rw [List.mem_singleton.1 h1, hclear]
            have hin : cellInBox s b p.1 p.2 := by
              rw [hcb]
              exact ⟨min_le_left _ _, le_max_left _ _, min_le_left _ _, le_max_left _ _⟩
            rw [if_pos hin]
      obtain ⟨st', hfold, hInv'⟩ := ih (vis ++ [p]) (clearBox st.1 b s, st.2 ++ [b])
        hbound' hnew
      refine ⟨st', hfold, ?_⟩
      rw [show vis ++ p :: todo = (vis ++ [p]) ++ todo by simp]
      exact hInv'
    · have hcf : st.1.cell p.1 p.2 = false := by
        revert hcell
        cases st.1.cell p.1 p.2 <;> simp
      rw [hstep, if_neg (by rw [hcf]; exact fun h => nomatch h)]
      have hnew : DecompInv g0 s st (vis ++ [p]) := by
        refine ⟨hInv.hh, hInv.hw, hInv.mono, hInv.okBoxes, hInv.disj, hInv.cleared,
          hInv.cover, ?_⟩
        intro q hq
        rcases List.mem_append.1 hq with h1 | h1
        · exact hInv.scanned q h1
        · rw [List.mem_singleton.1 h1]
          exact hcf
      obtain ⟨st', hfold, hInv'⟩ := ih (vis ++ [p]) st hbound' hnew
      refine ⟨st', hfold, ?_⟩
      rw [show vis ++ p :: todo = (vis ++ [p]) ++ todo by simp]
      exact hInv'

/-- The full correctness of the greedy decomposition loop over any grid. -/
theorem decomp_ok (g : Grid) (s : Nat) (hs : 0 < s) :
    ∃ boxes, break_rects g s = some boxes ∧
      List.Pairwise (fun b1 b2 => ∀ r c, ¬(cellInBox s b1 r c ∧ cellInBox s b2 r c)) boxes ∧
      (∀ b ∈ boxes, ∀ r c, cellInBox s b r c → r < g.h ∧ c < g.w ∧ g.cell r c = true) ∧
      (∀ r c, r < g.h → c < g.w → (g.cell r c = true ↔ ∃ b ∈ boxes, cellInBox s b r c)) := by
  have hInv0 : DecompInv g s (g, []) [] := by
    refine ⟨rfl, rfl, fun r c h => h, ?_, List.Pairwise.nil, ?_, ?_, ?_⟩
    · intro b hb; cases hb
    · intro b hb; cases hb
    · intro r c h; exact Or.inl h
    · intro p hp; cases hp
  obtain ⟨st', hfold, hInv⟩ := break_loop g s hs (allCells g) [] (g, [])
    (fun p hp => mem_allCells.1 hp) hInv0
  have hboxcell : ∀ b ∈ st'.2, ∀ r c, cellInBox s b r c →
      r < g.h ∧ c < g.w ∧ g.cell r c = true := by
    intro b hb r c hin
    obtain ⟨r1, r2, c1, c2, h12, hr2, h34, hc2, hbox, hfill⟩ := hInv.okBoxes b hb
    rw [hbox] at hin
    obtain ⟨h1, h2, h3, h4⟩ := (cellInBox_mk hs r1 r2 c1 c2 r c).1 hin
    exact ⟨by omega, by omega, hfill r c h1 h2 h3 h4⟩
  refine ⟨st'.2, ?_, hInv.disj, hboxcell, ?_⟩
  · rw [break_rects, hfold]
    rfl
  · intro r c hr hc
    constructor
    · intro hcell
      rcases hInv.cover r c hcell with h1 | h2
      · have := hInv.scanned (r, c) (by simpa using mem_allCells.2 ⟨hr, hc⟩)
        rw [this] at h1
        cases h1
      · exact h2
    · rintro ⟨b, hb, hin⟩
      exact (hboxcell b hb r c hin).2.2

/-! ## The occupancy grid construction -/

theorem ceilDiv_of_dvd {w s : Nat} (hs : 0 < s) (hd : s ∣ w) :
    (w + s - 1) / s = w / s := by
  obtain ⟨m, rfl⟩ := hd
  have h1 : s * m + s - 1 = s * m + (s - 1) := by omega
  rw [h1, Nat.mul_add_div hs, Nat.div_eq_of_lt (by omega), Nat.mul_div_cancel_left m hs]
  omega

/-- When the tile size exactly divides both image dimensions, every marked
cell is in range and the occupancy grid construction succeeds with the floor
dimensions. -/
theorem buildGrid_some (img : Img) (s : Nat) (hs : 0 < s) (hdw : s ∣ img.width)
    (hdh : s ∣ img.height) :
    ∃ g, buildGrid img s = some g ∧ g.h = img.height / s ∧ g.w = img.width / s := by
  rw [buildGrid]
  exact foldl_preserve _
    (fun og : Option Grid =>
      ∃ g : Grid, og = some g ∧ g.h = img.height / s ∧ g.w = img.width / s)
    (next_tile img s) _ ⟨_, rfl, rfl, rfl⟩
    (by
      intro og e he hP
      obtain ⟨g, rfl, hgh, hgw⟩ := hP
      obtain ⟨kx, ky, hkx, hky, rfl⟩ := mem_next_tile he
      show ∃ g' : Grid, (if is_empty_tile (cropTile img (kx * s) (ky * s) s) then some g
          else setCell g (ky * s / s) (kx * s / s)) = some g' ∧
          g'.h = img.height / s ∧ g'.w = img.width / s
      by_cases hemp : is_empty_tile (cropTile img (kx * s) (ky * s) s)
      · rw [if_pos hemp]
        exact ⟨g, rfl, hgh, hgw⟩
      · rw [if_neg hemp, Nat.mul_div_left ky hs, Nat.mul_div_left kx hs, setCell,
          if_pos ⟨by rw [hgh, ← ceilDiv_of_dvd hs hdh]; exact hky,
                  by rw [hgw, ← ceilDiv_of_dvd hs hdw]; exact hkx⟩]
        exact ⟨_, rfl, hgh, hgw⟩)

/-- Every set cell of a successfully built occupancy grid comes from a
non-empty tile at the corresponding pixel origin. -/
theorem buildGrid_cell_nonempty (img : Img) (s : Nat) (hs : 0 < s) (r c : Nat)
    (h : gridCell (buildGrid img s) r c = true) :
    is_empty_tile (cropTile img (c * s) (r * s) s) = false := by
  have hmain : ∀ r' c', gridCell (buildGrid img s) r' c' = true →
      is_empty_tile (cropTile img (c' * s) (r' * s) s) = false := by
    rw [buildGrid]
    apply foldl_preserve _
      (fun og : Option Grid => ∀ r' c', gridCell og r' c' = true →
        is_empty_tile (cropTile img (c' * s) (r' * s) s) = false)
      (next_tile img s)
    · intro r' c' h
      exact absurd h (by simp [gridCell])
    · intro og e he hP
      cases og with
      | none =>
        intro r' c' h
        exact absurd h (by simp [gridCell])
      | some g =>
        obtain ⟨kx, ky, hkx, hky, rfl⟩ := mem_next_tile he
        show ∀ r' c', gridCell (if is_empty_tile (cropTile img (kx * s) (ky * s) s) then some g
            else setCell g (ky * s / s) (kx * s / s)) r' c' = true →
            is_empty_tile (cropTile img (c' * s) (r' * s) s) = false
        by_cases hemp : is_empty_tile (cropTile img (kx * s) (ky * s) s)
        · rw [if_pos hemp]
          exact hP
        · rw [if_neg hemp, Nat.mul_div_left ky hs, Nat.mul_div_left kx hs, setCell]
          by_cases hin : ky < g.h ∧ kx < g.w
          · rw [if_pos hin]
            intro r' c' h
            by_cases heq : r' = ky ∧ c' = kx
            · rw [heq.1, heq.2]
              revert hemp
              cases is_empty_tile (cropTile img (kx * s) (ky * s) s) <;> simp
            · apply hP r' c'
              show g.cell r' c' = true
              have hcond : (if r' = ky ∧ c' = kx then true else g.cell r' c') = true := h
              rwa [if_neg heq] at hcond
          · rw [if_neg hin]
            intro r' c' h
            exact absurd h (by simp [gridCell])
  exact hmain r c h

/-! ## Claims -/

/-- C1, counterexample.  The claim states that tile iteration silently drops
partial tiles along the right and bottom border, so that the occupancy grid
is always well-formed and no out-of-range grid access can occur in
`break_tile_map`.  On the 2 by 3 image `imgBad` with tile size 2, iteration
produces two tiles (the partial bottom-border tile at y = 2 included, and
non-empty there), and the occupancy-grid construction of `break_tile_map`
performs an out-of-range write, so the whole of `break_tile_map` fails. -/
theorem C1_counterexample :
    (next_tile imgBad 2).length = 2 ∧
      (∃ e ∈ next_tile imgBad 2, e.2.2 = 2 ∧ is_empty_tile e.1 = false) ∧
      (buildGrid imgBad 2).isSome = false ∧
      break_tile_map imgBad 2 = none := by
  decide

/-- C1, amended.  Tile iteration does not drop partial border tiles: their
out-of-image pixels merely read as transparent.  When the tile size exactly
divides both image dimensions (so that no partial tile exists), the
occupancy grid is well-formed by construction — `floor(h/s)` rows and
`floor(w/s)` columns — and no internal failure can occur anywhere in
`break_tile_map`. -/
theorem C1_amended (img : Img) (s : Nat) (hs : 0 < s) (hdw : s ∣ img.width)
    (hdh : s ∣ img.height) :
    ∃ g boxes, buildGrid img s = some g ∧ g.h = img.height / s ∧ g.w = img.width / s ∧
      break_tile_map img s = some boxes := by
  obtain ⟨g, hg, hgh, hgw⟩ := buildGrid_some img s hs hdw hdh
  obtain ⟨boxes, hb, -, -, -⟩ := decomp_ok g s hs
  refine ⟨g, boxes, hg, hgh, hgw, ?_⟩
  rw [break_tile_map, hg]
  exact hb

theorem C1_amended_witness :
    (0 < 2 ∧ 2 ∣ imgEmpty2.width ∧ 2 ∣ imgEmpty2.height) ∧
      ∃ g boxes, buildGrid imgEmpty2 2 = some g ∧ g.h = imgEmpty2.height / 2 ∧
        g.w = imgEmpty2.width / 2 ∧ break_tile_map imgEmpty2 2 = some boxes :=
  ⟨⟨by decide, by decide, by decide⟩,
   C1_amended imgEmpty2 2 (by decide) (by decide) (by decide)⟩

/-- C2, counterexample.  The claim states index bases are assigned to
distinct fingerprints starting at 1, increasing by 4 per new entry in
first-encounter order, the first occurrence's entry being kept on a
duplicate.  On the 2 by 1 atlas `dupAtlas` (two identical non-empty size-1
tiles, hence a single fingerprint, which the claim would map to index base 1
with the first tile's uvs), the code keeps the second occurrence's entry:
index base 5 and the uv quad of the tile at x = 1, not the first tile's quad
`uvEntry dupAtlas 1 0 0`. -/
theorem C2_counterexample :
    dictFind (gen_tex_coords dupAtlas 1) [⟨0, 0, 0, 1⟩] =
        some (5, uvEntry dupAtlas 1 1 0) ∧
      (5 : Nat) ≠ 1 ∧
      uvEntry dupAtlas 1 1 0 ≠ uvEntry dupAtlas 1 0 0 := by
  refine ⟨rfl, by decide, ?_⟩
  intro h
  norm_num [uvEntry, dupAtlas] at h

/-- C2, amended.  `gen_tex_coords` performs one dictionary assignment per
non-empty atlas tile in row-major order — the n-th (zero-based) non-empty
tile being assigned index base `1 + 4 * n` and its uv quad, duplicates
included — and a repeated fingerprint keeps the entry of its LAST
occurrence, earlier assignments being overwritten: the lookup of any
fingerprint returns exactly the last assignment made for it. -/
theorem C2_amended (img : Img) (s : Nat) (k : List Pixel) :
    dictFind (gen_tex_coords img s) k =
      lastAssign k (tcAssignFrom img s 1 (liveTiles img s)) := by
  rw [gen_tex_coords_eq, dictFind_foldl_dictInsert]
  cases lastAssign k (tcAssignFrom img s 1 (liveTiles img s)) <;> rfl

/-- C3, counterexample.  The claim states mirroring is a caller-supplied
option and that with mirroring disabled the vertices follow the unmirrored
formula `bl = (x - W/2, ...)` and so on.  `gen_mesh` takes no such option:
on a single non-empty 1 by 1 tile its vertices are the X-negated (mirrored)
quad and differ from the unmirrored quad the claim prescribes. -/
theorem C3_counterexample :
    (gen_mesh img1 [] 1).verts =
        (specQuadUnmirrored ((1 : Nat) : ℚ) ((1 : Nat) : ℚ) ((1 : Nat) : ℚ)
          ((0 : Nat) : ℚ) ((0 : Nat) : ℚ)).map negX ∧
      (gen_mesh img1 [] 1).verts ≠
        specQuadUnmirrored ((1 : Nat) : ℚ) ((1 : Nat) : ℚ) ((1 : Nat) : ℚ)
          ((0 : Nat) : ℚ) ((0 : Nat) : ℚ) := by
  have heq : (gen_mesh img1 [] 1).verts =
      (specQuadUnmirrored ((1 : Nat) : ℚ) ((1 : Nat) : ℚ) ((1 : Nat) : ℚ)
        ((0 : Nat) : ℚ) ((0 : Nat) : ℚ)).map negX := rfl
  refine ⟨heq, ?_⟩
  rw [heq]
  intro h
  norm_num [specQuadUnmirrored, negX] at h

/-- C3, amended.  `gen_mesh` hard-codes X mirroring: with no caller option,
the four vertex positions of every non-empty tile are exactly the
specification's MIRRORED variant — the unmirrored corners
`bl = (x - W/2, -(y+s) + H/2, 0)`, `tl = (x - W/2, -y + H/2, 0)`,
`tr = (x + s - W/2, -y + H/2, 0)`, `br = (x + s - W/2, -(y+s) + H/2, 0)`
with the X component of each negated. -/
theorem C3_amended (img : Img) (tc : TexDict) (s : Nat) :
    (gen_mesh img tc s).verts =
      (liveTiles img s).flatMap (fun e =>
        (specQuadUnmirrored (img.width : ℚ) (img.height : ℚ) (s : ℚ)
          (e.2.1 : ℚ) (e.2.2 : ℚ)).map negX) := by
  rw [gen_mesh_eq]
  rfl

/-- C4.  For every occupancy grid and positive tile size, the rectangle
decomposition succeeds and its boxes are pairwise non-overlapping, every
cell inside each box is in range and was filled in the original grid, and a
cell of the grid is filled exactly when some box covers it (so the union of
the boxes' cells is exactly the set of originally filled cells). -/
theorem C4_decomposition (g : Grid) (s : Nat) (hs : 0 < s) :
    ∃ boxes, break_rects g s = some boxes ∧
      List.Pairwise (fun b1 b2 => ∀ r c, ¬(cellInBox s b1 r c ∧ cellInBox s b2 r c)) boxes ∧
      (∀ b ∈ boxes, ∀ r c, cellInBox s b r c → r < g.h ∧ c < g.w ∧ g.cell r c = true) ∧
      (∀ r c, r < g.h → c < g.w → (g.cell r c = true ↔ ∃ b ∈ boxes, cellInBox s b r c)) :=
  decomp_ok g s hs

theorem C4_decomposition_witness :
    0 < 2 ∧
      ∃ boxes, break_rects gridOne 2 = some boxes ∧
        List.Pairwise (fun b1 b2 => ∀ r c, ¬(cellInBox 2 b1 r c ∧ cellInBox 2 b2 r c)) boxes ∧
        (∀ b ∈ boxes, ∀ r c, cellInBox 2 b r c →
          r < gridOne.h ∧ c < gridOne.w ∧ gridOne.cell r c = true) ∧
        (∀ r c, r < gridOne.h → c < gridOne.w →
          (gridOne.cell r c = true ↔ ∃ b ∈ boxes, cellInBox 2 b r c)) :=
  ⟨by decide, C4_decomposition gridOne 2 (by decide)⟩

/-- C5.  For every map image, atlas index and positive tile size, the vertex
list of `gen_mesh` is the concatenation, over the non-empty tiles in
visiting order, of each tile's four vertices — so the n-th (1-based)
non-empty tile contributes exactly the vertex indices 4n-3, 4n-2, 4n-1, 4n —
and the right-hand side never mentions the atlas index, so this holds
whether or not any tile's fingerprint is found in it. -/
theorem C5_vertex_indices (img : Img) (tc : TexDict) (s : Nat) (_hs : 0 < s) :
    (gen_mesh img tc s).verts =
      (liveTiles img s).flatMap (fun e => quadVerts img s e.2.1 e.2.2) := by
  rw [gen_mesh_eq]

theorem C5_vertex_indices_witness :
    0 < 16 ∧
      (gen_mesh img16 [] 16).verts =
        (liveTiles img16 16).flatMap (fun e => quadVerts img16 16 e.2.1 e.2.2) :=
  ⟨by decide, C5_vertex_indices img16 [] 16 (by decide)⟩

/-- C6.  For every map image, atlas index and positive tile size: the
reported warnings are exactly one `(row, column)` pair — `(y / s, x / s)` —
per non-empty tile whose fingerprint is absent from the atlas index, in
visiting order; the vertex list still holds 4 vertices for every non-empty
tile, missed or not; and the face list holds exactly two faces per found
tile and none per missed tile.  `gen_mesh` is total, so a miss never aborts
the build and subsequent tiles are still processed. -/
theorem C6_lookup_miss (img : Img) (tc : TexDict) (s : Nat) (_hs : 0 < s) :
    (gen_mesh img tc s).warns = missWarns tc s (liveTiles img s) ∧
      (gen_mesh img tc s).verts.length = 4 * (liveTiles img s).length ∧
      (gen_mesh img tc s).faces.length =
        2 * (liveTiles img s).countP (fun e => (dictFind tc (tile_hash e.1)).isSome) ∧
      ∀ e ∈ liveTiles img s, dictFind tc (tile_hash e.1) = none →
        (e.2.2 / s, e.2.1 / s) ∈ (gen_mesh img tc s).warns := by
  rw [gen_mesh_eq]
  refine ⟨rfl, flatMap_quad_length img s _, facesFrom_length tc 0 _, ?_⟩
  intro e he hfind
  rw [missWarns, List.mem_filterMap]
  exact ⟨e, he, by rw [hfind]⟩

theorem C6_lookup_miss_witness :
    (gen_mesh img1 [] 1).warns = missWarns [] 1 (liveTiles img1 1) :=
  (C6_lookup_miss img1 [] 1 (by decide)).1

/-- C7.  For every map image, atlas index and positive tile size, the face
list of `gen_mesh` is exactly `facesFrom` applied to the non-empty tiles:
with the vertex counter at `n` before a found tile (so the tile's last
vertex index is `v = n + 4`) and `t0` the found entry's index base, the two
appended triangles are `[(v-3, t0), (v-2, t0+1), (v-1, t0+2)]` and then
`[(v-3, t0), (v-1, t0+2), (v, t0+3)]`, in that order. -/
theorem C7_triangles (img : Img) (tc : TexDict) (s : Nat) (_hs : 0 < s) :
    (gen_mesh img tc s).faces = facesFrom tc 0 (liveTiles img s) := by
  rw [gen_mesh_eq]

theorem C7_triangles_witness :
    0 < 16 ∧ (gen_mesh img16 tc16 16).faces = facesFrom tc16 0 (liveTiles img16 16) :=
  ⟨by decide, C7_triangles img16 tc16 16 (by decide)⟩

/-- The inline uv computation of `gen_tex_coords` coincides with the
specification's quad formula. -/
theorem uvEntry_eq_spec (img : Img) (s x y : Nat) :
    uvEntry img s x y =
      uvQuadSpec (img.width : ℚ) (img.height : ℚ) (s : ℚ) (x : ℚ) (y : ℚ) := rfl

/-- C8.  Every entry of the atlas index is keyed by the hash of some
non-empty tile at a pixel origin (x, y) and stores, beside its index base,
exactly the specification's uv quad `[bottomLeft, topLeft, topRight,
bottomRight]` with `ox = x / atlasWidth` and `oy = 1 - y / atlasHeight`. -/
theorem C8_uv_quad (img : Img) (s : Nat) (ent : List Pixel × Nat × List (ℚ × ℚ))
    (hmem : ent ∈ gen_tex_coords img s) :
    ∃ e ∈ liveTiles img s, ∃ b : Nat,
      ent = (tile_hash e.1,
        (b, uvQuadSpec (img.width : ℚ) (img.height : ℚ) (s : ℚ)
          (e.2.1 : ℚ) (e.2.2 : ℚ))) := by
  rw [gen_tex_coords_eq] at hmem
  rcases mem_foldl_dictInsert hmem with h | h
  · cases h
  · obtain ⟨e, he, b, -, hent⟩ := mem_tcAssignFrom h
    exact ⟨e, he, b, by rw [hent, uvEntry_eq_spec]⟩

theorem C8_uv_quad_witness :
    ((([⟨0, 0, 0, 1⟩] : List Pixel), ((1 : Nat), uvEntry img1 1 0 0)) ∈
        gen_tex_coords img1 1) ∧
      ∃ e ∈ liveTiles img1 1, ∃ b : Nat,
        ((([⟨0, 0, 0, 1⟩] : List Pixel), ((1 : Nat), uvEntry img1 1 0 0)) :
            List Pixel × Nat × List (ℚ × ℚ)) =
          (tile_hash e.1, (b, uvQuadSpec (img1.width : ℚ) (img1.height : ℚ)
            ((1 : Nat) : ℚ) (e.2.1 : ℚ) (e.2.2 : ℚ))) := by
  have hg : gen_tex_coords img1 1 = [([⟨0, 0, 0, 1⟩], (1, uvEntry img1 1 0 0))] := rfl
  have hmem : ((([⟨0, 0, 0, 1⟩] : List Pixel), ((1 : Nat), uvEntry img1 1 0 0)) ∈
      gen_tex_coords img1 1) := by
    rw [hg]
    exact List.mem_singleton.2 rfl
  exact ⟨hmem, C8_uv_quad img1 1 _ hmem⟩

/-- C9.  The serializer writes, after the group line and the v lines, the vt
block: the atlas entries sorted ascending by index base — a faithful
rendering of Python's tuple sort because the bases of any `gen_tex_coords`
dictionary are pairwise distinct — four vt lines per entry in stored order
bottomLeft, topLeft, topRight, bottomRight; the sort is a permutation of
the entries with ascending bases.  In the concrete scenario (16 by 16 fully
opaque map, atlas holding that exact tile at origin (0, 0)), the output has
exactly 4 v lines, 4 vt lines and exactly the two face lines
`f 1/1 2/2 3/3` and `f 1/1 3/3 4/4`. -/
theorem C9_serializer (img : Img) (s : Nat) (_hs : 0 < s) :
    (∀ (name : String) (verts : List (ℚ × ℚ × ℚ)) (tc : TexDict)
        (faces : List (List (Nat × Nat))),
        (write_obj_file name verts tc faces).filter isVT =
          (List.insertionSort (fun a b => a.1 ≤ b.1) (tc.map (fun e => e.2))).flatMap
            (fun b => b.2.map (fun q => ObjLine.vt q.1 q.2))) ∧
      (∀ tc : TexDict,
        List.Pairwise (fun (a b : Nat × List (ℚ × ℚ)) => a.1 ≤ b.1)
          (List.insertionSort (fun a b => a.1 ≤ b.1) (tc.map (fun e => e.2))) ∧
        List.Perm (List.insertionSort (fun (a b : Nat × List (ℚ × ℚ)) => a.1 ≤ b.1)
          (tc.map (fun e => e.2))) (tc.map (fun e => e.2))) ∧
      List.Pairwise (fun a b => a.2.1 ≠ b.2.1) (gen_tex_coords img s) ∧
      (((write_obj_file objName (gen_mesh img16 tc16 16).verts tc16
          (gen_mesh img16 tc16 16).faces).filter isV).length = 4 ∧
        ((write_obj_file objName (gen_mesh img16 tc16 16).verts tc16
          (gen_mesh img16 tc16 16).faces).filter isVT).length = 4 ∧
        (write_obj_file objName (gen_mesh img16 tc16 16).verts tc16
          (gen_mesh img16 tc16 16).faces).filter isF =
          [ObjLine.f [(1, 1), (2, 2), (3, 3)], ObjLine.f [(1, 1), (3, 3), (4, 4)]]) := by
  refine ⟨?_, ?_, gen_tex_coords_bases_distinct img s, ?_⟩
  · intro name verts tc faces
    rw [write_obj_file, List.filter_append, List.filter_append, List.filter_append]
    have h1 : List.filter isVT [ObjLine.gname name] = [] := rfl
    have h2 : List.filter isVT (verts.map (fun p => ObjLine.v p.1 p.2.1 p.2.2)) = [] := by
      rw [List.filter_eq_nil_iff]
      intro a ha
      obtain ⟨p, -, rfl⟩ := List.mem_map.1 ha
      simp [isVT]
    have h4 : List.filter isVT (faces.map ObjLine.f) = [] := by
      rw [List.filter_eq_nil_iff]
      intro a ha
      obtain ⟨p, -, rfl⟩ := List.mem_map.1 ha
      simp [isVT]
    have h3 : List.filter isVT
        ((List.insertionSort (fun a b => a.1 ≤ b.1) (tc.map (fun e => e.2))).flatMap
          (fun b => b.2.map (fun q => ObjLine.vt q.1 q.2))) =
        (List.insertionSort (fun a b => a.1 ≤ b.1) (tc.map (fun e => e.2))).flatMap
          (fun b => b.2.map (fun q => ObjLine.vt q.1 q.2)) := by
      rw [List.filter_eq_self]
      intro a ha
      obtain ⟨b, -, ha2⟩ := List.mem_flatMap.1 ha
      obtain ⟨q, -, rfl⟩ := List.mem_map.1 ha2
      simp [isVT]
    rw [h1, h2, h3, h4]
    simp
  · intro tc
    haveI : IsTotal (Nat × List (ℚ × ℚ)) (fun a b => a.1 ≤ b.1) :=
      ⟨fun a b => Nat.le_total a.1 b.1⟩
    haveI : IsTrans (Nat × List (ℚ × ℚ)) (fun a b => a.1 ≤ b.1) :=
      ⟨fun _ _ _ h1 h2 => Nat.le_trans h1 h2⟩
    exact ⟨List.sorted_insertionSort _ _, List.perm_insertionSort _ _⟩
  · refine ⟨by decide, by decide, by decide⟩

theorem C9_serializer_witness :
    List.Pairwise (fun a b => a.2.1 ≠ b.2.1) (gen_tex_coords img16 16) :=
  (C9_serializer img16 16 (by decide)).2.2.1

/-- C10.  A tile with alpha sum zero contributes nothing anywhere: every
atlas-index entry is keyed by (the hash of, i.e. the content of) a
non-empty tile; every set occupancy-grid cell comes from a non-empty tile at
the corresponding pixel origin; and the mesh holds exactly 4 vertices per
non-empty tile and 2 faces per found non-empty tile, so empty tiles add no
vertex and no face. -/
theorem C10_empty_tiles :
    (∀ (img : Img) (s : Nat) (ent : List Pixel × Nat × List (ℚ × ℚ)),
        ent ∈ gen_tex_coords img s → is_empty_tile ent.1 = false) ∧
      (∀ (img : Img) (s : Nat) (r c : Nat), 0 < s →
        gridCell (buildGrid img s) r c = true →
        is_empty_tile (cropTile img (c * s) (r * s) s) = false) ∧
      (∀ (img : Img) (tc : TexDict) (s : Nat),
        (gen_mesh img tc s).verts.length = 4 * (liveTiles img s).length ∧
        (gen_mesh img tc s).faces.length =
          2 * (liveTiles img s).countP (fun e => (dictFind tc (tile_hash e.1)).isSome)) := by
  refine ⟨?_, ?_, ?_⟩
  · intro img s ent hmem
    rw [gen_tex_coords_eq] at hmem
    rcases mem_foldl_dictInsert hmem with h | h
    · cases h
    · obtain ⟨e, he, b, -, hent⟩ := mem_tcAssignFrom h
      rw [liveTiles] at he
      have hne := (List.mem_filter.1 he).2
      rw [hent]
      show is_empty_tile (tile_hash e.1) = false
      rw [tile_hash]
      revert hne
      cases is_empty_tile e.1 <;> simp
  · intro img s r c hs h
    exact buildGrid_cell_nonempty img s hs r c h
  · intro img tc s
    rw [gen_mesh_eq]
    exact ⟨flatMap_quad_length img s _, facesFrom_length tc 0 _⟩

theorem C10_empty_tiles_witness :
    is_empty_tile ((([⟨0, 0, 0, 1⟩] : List Pixel),
        ((1 : Nat), uvEntry img2w 1 0 0)) : List Pixel × Nat × List (ℚ × ℚ)).1 = false ∧
      is_empty_tile (cropTile img2w (0 * 1) (0 * 1) 1) = false ∧
      ((gen_mesh img2w [] 1).verts.length = 4 * (liveTiles img2w 1).length ∧
        (gen_mesh img2w [] 1).faces.length =
          2 * (liveTiles img2w 1).countP (fun e => (dictFind [] (tile_hash e.1)).isSome)) := by
  have hg : gen_tex_coords img2w 1 = [([⟨0, 0, 0, 1⟩], (1, uvEntry img2w 1 0 0))] := rfl
  have hmem : ((([⟨0, 0, 0, 1⟩] : List Pixel), ((1 : Nat), uvEntry img2w 1 0 0)) ∈
      gen_tex_coords img2w 1) := by
    rw [hg]
    exact List.mem_singleton.2 rfl
  exact ⟨C10_empty_tiles.1 img2w 1 _ hmem,
    C10_empty_tiles.2.1 img2w 1 0 0 (by decide) (by decide),
    C10_empty_tiles.2.2 img2w [] 1⟩

end TileTool
